import Mathlib

/-!
Verification of the Git-emulator core of `EmuladorGIT.py` (class `GitEmulator`).

The repository state is the JSON document `index.json`:
`{"staged": {path: digest}, "commits": [commit...],
  "branches": {name: hash-or-null}, "current_branch": name}`.
Python dicts are embedded as association lists with insertion-order
semantics (`dictInsert` updates in place or appends at the end), the
working tree (`os.walk` over the repository root, skipping `.git`) as an
association list from relative path to byte content, and
`hashlib.sha256(...).hexdigest()` as an executable SHA-256 over `Nat`
bytes.  Operations are pure functions returning the persisted index
(`save_index` target, unchanged when the code returns without saving)
together with the returned message string.
-/

namespace EmuladorGIT

/-- 2^32, the word modulus of SHA-256. -/
def M32 : Nat := 4294967296

/-- Truncate to a 32-bit word. -/
def w32 (n : Nat) : Nat := n % M32

/-- Right rotation of a 32-bit word: the low `n` bits wrap to the top. -/
def rotr32 (x n : Nat) : Nat := (x >>> n) + (x % 2 ^ n) * 2 ^ (32 - n)

/-- The big Σ0 word function of the SHA-256 compression loop. -/
def sigA (x : Nat) : Nat :=
  Nat.xor (Nat.xor (rotr32 x 2) (rotr32 x 13)) (rotr32 x 22)

/-- The big Σ1 word function of the SHA-256 compression loop. -/
def sigB (x : Nat) : Nat :=
  Nat.xor (Nat.xor (rotr32 x 6) (rotr32 x 11)) (rotr32 x 25)

/-- The small σ0 word function of the message schedule. -/
def sigC (x : Nat) : Nat :=
  Nat.xor (Nat.xor (rotr32 x 7) (rotr32 x 18)) (x >>> 3)

/-- The small σ1 word function of the message schedule. -/
def sigD (x : Nat) : Nat :=
  Nat.xor (Nat.xor (rotr32 x 17) (rotr32 x 19)) (x >>> 10)

/-- The choose function: bits of `y` where `x` is set, of `z` elsewhere. -/
def chooseFn (x y z : Nat) : Nat :=
  Nat.xor (Nat.land x y) (Nat.land (Nat.xor x 4294967295) z)

/-- The majority function on three 32-bit words. -/
def majorityFn (x y z : Nat) : Nat :=
  Nat.xor (Nat.xor (Nat.land x y) (Nat.land x z)) (Nat.land y z)

/-- The 64 SHA-256 round constants (decimal rendering of the standard
table: the fractional cube-root words). -/
def K256 : List Nat :=
  [1116352408, 1899447441, 3049323471, 3921009573, 961987163, 1508970993,
   2453635748, 2870763221, 3624381080, 310598401, 607225278, 1426881987,
   1925078388, 2162078206, 2614888103, 3248222580, 3835390401, 4022224774,
   264347078, 604807628, 770255983, 1249150122, 1555081692, 1996064986,
   2554220882, 2821834349, 2952996808, 3210313671, 3336571891, 3584528711,
   113926993, 338241895, 666307205, 773529912, 1294757372, 1396182291,
   1695183700, 1986661051, 2177026350, 2456956037, 2730485921, 2820302411,
   3259730800, 3345764771, 3516065817, 3600352804, 4094571909, 275423344,
   430227734, 506948616, 659060556, 883997877, 958139571, 1322822218,
   1537002063, 1747873779, 1955562222, 2024104815, 2227730452, 2361852424,
   2428436474, 2756734187, 3204031479, 3329325298]

/-- The eight 32-bit SHA-256 chaining words. -/
structure H8 where
  a : Nat
  b : Nat
  c : Nat
  d : Nat
  e : Nat
  f : Nat
  g : Nat
  h : Nat

/-- SHA-256 initial hash value (decimal rendering of the standard
fractional square-root words). -/
def sha256init : H8 :=
  ⟨1779033703, 3144134277, 1013904242, 2773480762,
   1359893119, 2600822924, 528734635, 1541459225⟩

/-- Big-endian 8-byte encoding of a (bit-)length. -/
def toBE8 (n : Nat) : List Nat :=
  [(n >>> 56) % 256, (n >>> 48) % 256, (n >>> 40) % 256, (n >>> 32) % 256,
   (n >>> 24) % 256, (n >>> 16) % 256, (n >>> 8) % 256, n % 256]

/-- SHA-256 padding: append `0x80`, zero bytes up to 56 mod 64, then the
bit length as 8 big-endian bytes. -/
def padBytes (msg : List Nat) : List Nat :=
  let len := msg.length
  let k := (120 - (len + 1) % 64) % 64
  msg ++ [128] ++ List.replicate k 0 ++ toBE8 (len * 8)

/-- Split a byte list into 64-byte blocks. -/
def chunk64 (l : List Nat) : List (List Nat) :=
  if h : l = [] then []
  else l.take 64 :: chunk64 (l.drop 64)
termination_by l.length
decreasing_by
  simp only [List.length_drop]
  exact Nat.sub_lt (List.length_pos.mpr h) (by norm_num)

/-- Big-endian 32-bit words from bytes. -/
def bytesToWords : List Nat → List Nat
  | b0 :: b1 :: b2 :: b3 :: rest =>
      (b0 * 16777216 + b1 * 65536 + b2 * 256 + b3) :: bytesToWords rest
  | _ => []

/-- One message-schedule extension step (appends word `W[n]`). -/
def scheduleStep (w : Array Nat) : Array Nat :=
  let n := w.size
  w.push (w32 (sigD (w.getD (n - 2) 0) + w.getD (n - 7) 0 +
               sigC (w.getD (n - 15) 0) + w.getD (n - 16) 0))

/-- The 64-word message schedule of one block. -/
def schedule (block : List Nat) : Array Nat :=
  (List.range 48).foldl (fun w _ => scheduleStep w) (bytesToWords block).toArray

/-- One SHA-256 compression round. -/
def roundStep (k w : Nat) (s : H8) : H8 :=
  let t1 := w32 (s.h + sigB s.e + chooseFn s.e s.f s.g + k + w)
  let t2 := w32 (sigA s.a + majorityFn s.a s.b s.c)
  ⟨w32 (t1 + t2), s.a, s.b, s.c, w32 (s.d + t1), s.e, s.f, s.g⟩

/-- Compress one 64-byte block into the chaining state. -/
def compressBlock (st : H8) (block : List Nat) : H8 :=
  let w := schedule block
  let s := (List.range 64).foldl (fun s t => roundStep (K256.getD t 0) (w.getD t 0) s) st
  ⟨w32 (st.a + s.a), w32 (st.b + s.b), w32 (st.c + s.c), w32 (st.d + s.d),
   w32 (st.e + s.e), w32 (st.f + s.f), w32 (st.g + s.g), w32 (st.h + s.h)⟩

/-- Lowercase hex digit. -/
def hexDigit (n : Nat) : Char :=
  if n < 10 then Char.ofNat (48 + n) else Char.ofNat (87 + n)

/-- Eight-hex-digit big-endian rendering of a 32-bit word. -/
def hexWord (n : Nat) : String :=
  String.mk ((List.range 8).map (fun i => hexDigit ((n >>> (28 - 4 * i)) % 16)))

/-- `hashlib.sha256(bytes).hexdigest()`: the full SHA-256 hex digest of a
byte list. -/
def sha256_hexdigest (msg : List Nat) : String :=
  let st := (chunk64 (padBytes msg)).foldl compressBlock sha256init
  hexWord st.a ++ hexWord st.b ++ hexWord st.c ++ hexWord st.d ++
  hexWord st.e ++ hexWord st.f ++ hexWord st.g ++ hexWord st.h

/-- UTF-8 encoding of one code point (Python `str.encode()`). -/
def utf8Char (c : Nat) : List Nat :=
  if c < 128 then [c]
  else if c < 2048 then [192 + c / 64, 128 + c % 64]
  else if c < 65536 then [224 + c / 4096, 128 + (c / 64) % 64, 128 + c % 64]
  else [240 + c / 262144, 128 + (c / 4096) % 64, 128 + (c / 64) % 64, 128 + c % 64]

/-- UTF-8 bytes of a string (Python `s.encode()`). -/
def utf8Encode (s : String) : List Nat :=
  (s.data.map (fun c => utf8Char c.toNat)).flatten

/-- `hashlib.sha256(s.encode()).hexdigest()`. -/
def pyHash (s : String) : String := sha256_hexdigest (utf8Encode s)

/-- Lookup in a Python dict embedded as an association list. -/
def dictLookup {α : Type} : List (String × α) → String → Option α
  | [], _ => none
  | (k, v) :: rest, key => if k = key then some v else dictLookup rest key

/-- Python dict assignment `d[key] = val`: update in place when the key is
present, append otherwise (insertion order is preserved). -/
def dictInsert {α : Type} : List (String × α) → String → α → List (String × α)
  | [], key, val => [(key, val)]
  | (k, v) :: rest, key, val =>
      if k = key then (key, val) :: rest else (k, v) :: dictInsert rest key val

/-- A commit record exactly as `GitEmulator.commit` builds it: the dict
`{"hash", "message", "author", "date", "files", "branch"}`.  There is no
parent field. -/
structure Commit where
  hash : String
  message : String
  author : String
  date : String
  files : List (String × String)
  branch : String
deriving Repr, DecidableEq

/-- The persisted repository state `index.json`. -/
structure Index where
  staged : List (String × String)
  commits : List Commit
  branches : List (String × Option String)
  current_branch : String
deriving Repr, DecidableEq

/-- The fresh state written by `GitEmulator.init`. -/
def initIndex : Index :=
  { staged := [], commits := [], branches := [("main", none)], current_branch := "main" }

/-- The working tree: relative path to raw byte content, for the files
`os.walk` yields under the repository root (the `.git` directory is
skipped by the walk). -/
abbrev Disk := List (String × List Nat)

/-- `config.get(key, default)` on the loaded configuration dict. -/
def cfgGet (cfg : List (String × String)) (key dflt : String) : String :=
  (dictLookup cfg key).getD dflt

/-- The message `GitEmulator.commit` returns when the stage is empty. -/
def NothingToCommitMsg : String := "nothing to commit, working tree clean"

/-- The message `GitEmulator.add` returns when the path is absent on disk. -/
def PathNotFoundMsg (p : String) : String :=
  "fatal: pathspec \x27" ++ p ++ "\x27 did not match any files"

/-- The message `GitEmulator.branch` returns when the name already exists. -/
def BranchExistsMsg (n : String) : String :=
  "fatal: A branch named \x27" ++ n ++ "\x27 already exists."

/-- The message `GitEmulator.checkout` returns when the branch is unknown. -/
def UnknownRefMsg (b : String) : String :=
  "error: pathspec \x27" ++ b ++ "\x27 did not match any file(s) known to git"

/-- The message `GitEmulator.checkout` returns when the stage is non-empty. -/
def UncommittedChangesMsg : String :=
  "error: Your local changes would be overwritten by checkout.\nPlease commit your changes first."

/-- `GitEmulator.get_untracked_files`: committed-in-last-commit test —
`rel_path in index[\x27commits\x27][-1].get(\x27files\x27, \x7b\x7d)` when
the commit list is non-empty, else `False`. -/
def isCommittedInLast (idx : Index) (p : String) : Bool :=
  match idx.commits.getLast? with
  | some c => (dictLookup c.files p).isSome
  | none => false

/-- `GitEmulator.get_untracked_files`: the files on disk that are in
neither the stage nor the last commit's file map, in walk order. -/
def get_untracked_files (fs : Disk) (idx : Index) : List String :=
  (fs.map Prod.fst).filter
    (fun p => (dictLookup idx.staged p).isNone && !(isCommittedInLast idx p))

/-- The body of the `for file in untracked` loop of `GitEmulator.add(".")`:
re-check existence, read the content, stage its SHA-256 hex digest. -/
def stageFile (fs : Disk) (st : List (String × String)) (f : String) :
    List (String × String) :=
  match dictLookup fs f with
  | some content => dictInsert st f (sha256_hexdigest content)
  | none => st

/-- `GitEmulator.add(path)`.  Returns the persisted index (unchanged when
the code returns without `save_index`) and the returned message. -/
def add (fs : Disk) (idx : Index) (path : String) : Index × String :=
  if path = "." then
    let untracked := get_untracked_files fs idx
    ({ idx with staged := untracked.foldl (stageFile fs) idx.staged },
     "Added " ++ toString untracked.length ++ " files")
  else
    match dictLookup fs path with
    | none => (idx, PathNotFoundMsg path)
    | some content =>
        ({ idx with staged := dictInsert idx.staged path (sha256_hexdigest content) },
         "Added \x27" ++ path ++ "\x27 to stage")

/-- The commit dict `GitEmulator.commit` builds.  `nowStr` is
`str(datetime.now())` as interpolated into the hash input; `nowIso` is the
`datetime.now().isoformat()` of the second clock read. -/
def mkCommit (cfg : List (String × String)) (nowStr nowIso : String)
    (staged : List (String × String)) (branch msg : String) : Commit :=
  { hash := (pyHash (msg ++ nowStr)).take 8,
    message := msg,
    author := cfgGet cfg "user.name" "User" ++ " <" ++
              cfgGet cfg "user.email" "user@example.com" ++ ">",
    date := nowIso,
    files := staged,
    branch := branch }

/-- `GitEmulator.commit(message)`: guard on an empty stage, append the new
commit, point the current branch at its hash, clear the stage. -/
def commit (cfg : List (String × String)) (nowStr nowIso : String)
    (idx : Index) (message : String) : Index × String :=
  if idx.staged = [] then
    (idx, NothingToCommitMsg)
  else
    let c := mkCommit cfg nowStr nowIso idx.staged idx.current_branch message
    ({ idx with
        commits := idx.commits ++ [c],
        branches := dictInsert idx.branches idx.current_branch (some c.hash),
        staged := [] },
     "[" ++ idx.current_branch ++ " " ++ c.hash ++ "] " ++ message ++
       "\n " ++ toString c.files.length ++ " files changed")

/-- The commits in the order `GitEmulator.log` prints them:
`reversed(index[\x27commits\x27])`, the whole list, newest first. -/
def logEntries (idx : Index) : List Commit := idx.commits.reverse

/-- The four output lines `GitEmulator.log` emits per commit. -/
def logLines (c : Commit) : List String :=
  ["commit " ++ c.hash, "Author: " ++ c.author,
   "Date:   " ++ c.date ++ "\n", "    " ++ c.message ++ "\n"]

/-- `GitEmulator.log()`: read-only; never calls `save_index`. -/
def log (idx : Index) : Index × String :=
  if idx.commits = [] then (idx, "No commits yet")
  else (idx, String.intercalate "\n" ((logEntries idx).map logLines).flatten)

/-- `GitEmulator.status()`: read-only; never calls `save_index`. -/
def status (fs : Disk) (idx : Index) : Index × String :=
  let untracked := get_untracked_files fs idx
  let out :=
    ["On branch " ++ idx.current_branch]
    ++ (if idx.commits = [] then ["\nNo commits yet\n"] else [])
    ++ (if idx.staged ≠ [] then
          ["\nChanges to be committed:",
           "  (use \"git reset HEAD <file>...\" to unstage)\n"]
          ++ idx.staged.map (fun p => "        modified:   " ++ p.1)
        else [])
    ++ (if untracked ≠ [] then
          ["\nUntracked files:",
           "  (use \"git add <file>...\" to include in what will be committed)\n"]
          ++ untracked.map (fun f => "        " ++ f)
        else [])
    ++ (if idx.staged = [] ∧ untracked = [] then
          ["\nnothing to commit, working tree clean"]
        else [])
  (idx, String.intercalate "\n" out)

/-- `GitEmulator.branch(name)`.  `none` lists branches; `some n` creates
one.  When the current branch is missing from the branches dict, the
Python `KeyError` is caught by the surrounding `except` and stringified
(`str(e)` is the quoted key), with nothing saved. -/
def branch (idx : Index) (name : Option String) : Index × String :=
  match name with
  | none =>
      (idx, String.intercalate "\n" (idx.branches.map (fun b =>
        (if b.1 = idx.current_branch then "* " else "  ") ++ b.1)))
  | some n =>
      if (dictLookup idx.branches n).isSome then
        (idx, BranchExistsMsg n)
      else
        match dictLookup idx.branches idx.current_branch with
        | some cur =>
            ({ idx with branches := dictInsert idx.branches n cur },
             "Branch \x27" ++ n ++ "\x27 created")
        | none => (idx, "\x27" ++ idx.current_branch ++ "\x27")

/-- `GitEmulator.checkout(branch)`: unknown-ref guard, then dirty-stage
guard, then switch the current branch. -/
def checkout (idx : Index) (b : String) : Index × String :=
  if dictLookup idx.branches b = none then
    (idx, UnknownRefMsg b)
  else if idx.staged ≠ [] then
    (idx, UncommittedChangesMsg)
  else
    ({ idx with current_branch := b }, "Switched to branch \x27" ++ b ++ "\x27")

/-- An empty configuration dict (both `config.get` defaults apply). -/
def cfg0 : List (String × String) := []

/-- A configuration naming Alice. -/
def cfgA : List (String × String) := [("user.name", "Alice"), ("user.email", "alice@x")]

/-- A configuration naming Bob. -/
def cfgB : List (String × String) := [("user.name", "Bob"), ("user.email", "bob@x")]

/-- A state with one staged file and an unborn `main` branch. -/
def exStagedA : Index :=
  { staged := [("a.txt", "d1")], commits := [],
    branches := [("main", none)], current_branch := "main" }

/-- The same state except that `main` already points at a commit digest. -/
def exStagedB : Index :=
  { staged := [("a.txt", "d1")], commits := [],
    branches := [("main", some "deadbeef")], current_branch := "main" }

/-- A state staging two different files, `main` unborn. -/
def exStagedC : Index :=
  { staged := [("b.txt", "d2"), ("c.txt", "d3")], commits := [],
    branches := [("main", none)], current_branch := "main" }

/-- A commit made on `main`. -/
def exCommitMain : Commit :=
  { hash := "aaaa1111", message := "first", author := "User <user@example.com>",
    date := "D1", files := [("a.txt", "d1")], branch := "main" }

/-- A commit made on `feature`. -/
def exCommitFeat : Commit :=
  { hash := "bbbb2222", message := "second", author := "User <user@example.com>",
    date := "D2", files := [("b.txt", "d2")], branch := "feature" }

/-- A two-branch state: `main` is current and heads `exCommitMain`, while
`exCommitFeat` was committed on `feature`. -/
def exTwoBranch : Index :=
  { staged := [], commits := [exCommitMain, exCommitFeat],
    branches := [("main", some "aaaa1111"), ("feature", some "bbbb2222")],
    current_branch := "main" }

/-- A state whose branches dict has `main` born and `dev` unborn. -/
def exBranches : Index :=
  { staged := [], commits := [], current_branch := "main",
    branches := [("main", some "aaaa1111"), ("dev", none)] }

/-- A one-file working tree (`a.txt` containing the byte `x`). -/
def exFs : Disk := [("a.txt", [120])]

theorem dictLookup_insert_self {α : Type} (l : List (String × α)) (k : String) (v : α) :
    dictLookup (dictInsert l k v) k = some v := by
  induction l with
  | nil => simp [dictInsert, dictLookup]
  | cons hd tl ih =>
      obtain ⟨a, b⟩ := hd
      by_cases hak : a = k
      · simp [dictInsert, hak, dictLookup]
      · simp [dictInsert, hak, dictLookup, ih]

theorem dictLookup_insert_ne {α : Type} (l : List (String × α)) (k k' : String) (v : α)
    (h : k' ≠ k) : dictLookup (dictInsert l k v) k' = dictLookup l k' := by
  have hkk : k ≠ k' := Ne.symm h
  induction l with
  | nil => simp [dictInsert, dictLookup, hkk]
  | cons hd tl ih =>
      obtain ⟨a, b⟩ := hd
      by_cases hak : a = k
      · subst hak
        simp [dictInsert, dictLookup, hkk]
      · by_cases hak' : a = k'
        · subst hak'
          simp [dictInsert, hak, dictLookup]
        · simp [dictInsert, hak, dictLookup, hak', ih]

theorem dictInsert_idem {α : Type} (l : List (String × α)) (k : String) (v : α) :
    dictInsert (dictInsert l k v) k v = dictInsert l k v := by
  induction l with
  | nil => simp [dictInsert]
  | cons hd tl ih =>
      obtain ⟨a, b⟩ := hd
      by_cases hak : a = k
      · simp [dictInsert, hak]
      · simp [dictInsert, hak, ih]

theorem exists_lookup_of_mem_keys {α : Type} (l : List (String × α)) (p : String)
    (hp : p ∈ l.map Prod.fst) : ∃ c, dictLookup l p = some c := by
  induction l with
  | nil => simp at hp
  | cons hd tl ih =>
      obtain ⟨a, b⟩ := hd
      by_cases hap : a = p
      · exact ⟨b, by simp [dictLookup, hap]⟩
      · have hp' : p ∈ tl.map Prod.fst := by
          rcases List.mem_cons.mp hp with h | h
          · exact absurd h.symm hap
          · exact h
        obtain ⟨c, hc⟩ := ih hp'
        exact ⟨c, by simp [dictLookup, hap, hc]⟩

theorem foldl_stageFile_not_mem (fs : Disk) (L : List String)
    (st : List (String × String)) (p : String) (hp : p ∉ L) :
    dictLookup (L.foldl (stageFile fs) st) p = dictLookup st p := by
  induction L generalizing st with
  | nil => rfl
  | cons q rest ih =>
      have hpq : p ≠ q := fun he => hp (he ▸ List.mem_cons_self q rest)
      have hpr : p ∉ rest := fun hm => hp (List.mem_cons_of_mem q hm)
      rw [List.foldl_cons, ih _ hpr]
      unfold stageFile
      cases dictLookup fs q with
      | none => rfl
      | some content => exact dictLookup_insert_ne st q p _ hpq

theorem foldl_stageFile_mem (fs : Disk) (L : List String)
    (st : List (String × String)) (p : String) (c : List Nat)
    (hc : dictLookup fs p = some c) :
    L.Nodup → p ∈ L →
      dictLookup (L.foldl (stageFile fs) st) p = some (sha256_hexdigest c) := by
  induction L generalizing st with
  | nil => intro _ hp; simp at hp
  | cons q rest ih =>
      intro hnd hp
      rw [List.foldl_cons]
      by_cases hpq : p = q
      · subst hpq
        have hpr : p ∉ rest := (List.nodup_cons.mp hnd).1
        rw [foldl_stageFile_not_mem fs rest _ p hpr]
        unfold stageFile
        rw [hc]
        exact dictLookup_insert_self st p _
      · have hpr : p ∈ rest := by
          rcases List.mem_cons.mp hp with h | h
          · exact absurd h hpq
          · exact h
        exact ih _ (List.nodup_cons.mp hnd).2 hpr

/-- C1 (counterexample): the claim says the new commit's parent is the
digest the current branch held before the commit.  But the commit record
built by `GitEmulator.commit` has no parent field at all: two states that
differ only in the branch's previous target (`none` versus a digest)
produce identical commit lists, so the new record cannot contain — or even
determine — the previous head. -/
theorem C1_counterexample :
    dictLookup exStagedA.branches "main" ≠ dictLookup exStagedB.branches "main" ∧
    (commit cfg0 "T0" "TI" exStagedA "msg").1.commits
      = (commit cfg0 "T0" "TI" exStagedB "msg").1.commits := by
  refine ⟨by decide, ?_⟩
  rfl

/-- C1 (amended): a successful `commit` empties the Index, appends a
commit record built from the staged files, and points the current branch
at that record's hash; the record stores no parent reference and is
independent of the branch's previous target. -/
theorem C1_commit_success (cfg : List (String × String)) (nowStr nowIso : String)
    (idx : Index) (msg : String) (h : idx.staged ≠ []) :
    (commit cfg nowStr nowIso idx msg).1.staged = [] ∧
    (commit cfg nowStr nowIso idx msg).1.commits
      = idx.commits ++ [mkCommit cfg nowStr nowIso idx.staged idx.current_branch msg] ∧
    dictLookup (commit cfg nowStr nowIso idx msg).1.branches idx.current_branch
      = some (some (mkCommit cfg nowStr nowIso idx.staged idx.current_branch msg).hash) ∧
    ∀ idx2 : Index, idx2.staged = idx.staged → idx2.current_branch = idx.current_branch →
      (commit cfg nowStr nowIso idx2 msg).1.commits.getLast?
        = (commit cfg nowStr nowIso idx msg).1.commits.getLast? := by
  unfold commit
  rw [if_neg h]
  refine ⟨rfl, rfl, dictLookup_insert_self _ _ _, ?_⟩
  intro idx2 hs hb
  have h2 : idx2.staged ≠ [] := by rw [hs]; exact h
  rw [if_neg h2, hs, hb]
  simp [List.getLast?_concat]

/-- C1 witness. -/
theorem C1_commit_success_witness :
    exStagedA.staged ≠ [] ∧ (commit cfg0 "T0" "TI" exStagedA "msg").1.staged = [] :=
  ⟨by decide, (C1_commit_success cfg0 "T0" "TI" exStagedA "msg" (by decide)).1⟩

/-- C2 (counterexample): the claim says commits made on other branches do
not appear in `log`.  In `exTwoBranch` the current branch is `main`, whose
head is `exCommitMain`, yet `exCommitFeat` — committed on `feature` and
distinct from the head — appears in the traversal `log` prints. -/
theorem C2_counterexample :
    exTwoBranch.current_branch = "main" ∧
    dictLookup exTwoBranch.branches "main" = some (some exCommitMain.hash) ∧
    exCommitFeat.branch ≠ exTwoBranch.current_branch ∧
    exCommitFeat.hash ≠ exCommitMain.hash ∧
    exCommitFeat ∈ logEntries exTwoBranch := by
  decide

/-- C2 (amended): `log()` yields all commits of the repository in reverse
insertion order (newest first), regardless of the branch they were made
on; it follows no parent links (commit records store none) and does not
depend on the current branch. -/
theorem C2_log_allbranches (idx : Index) (h : idx.commits ≠ []) :
    logEntries idx = idx.commits.reverse ∧
    (∀ c : Commit, c ∈ logEntries idx ↔ c ∈ idx.commits) ∧
    (∀ b : String, logEntries { idx with current_branch := b } = logEntries idx) ∧
    (log idx).2 = String.intercalate "\n" ((logEntries idx).map logLines).flatten := by
  refine ⟨rfl, fun c => by simp [logEntries], fun b => rfl, ?_⟩
  unfold log
  rw [if_neg h]

/-- C2 witness. -/
theorem C2_log_allbranches_witness :
    exTwoBranch.commits ≠ [] ∧ logEntries exTwoBranch = exTwoBranch.commits.reverse :=
  ⟨by decide, (C2_log_allbranches exTwoBranch (by decide)).1⟩

/-- C3 (counterexample): the claim says commits with differing fields have
differing identity.  Two commits that differ in both their file map and
their author (different stages, different configured users) but share
message and timestamp get the same hash, because
`GitEmulator.commit` hashes only `message + str(datetime.now())`. -/
theorem C3_counterexample :
    (commit cfgA "T0" "TI" exStagedA "m").1.commits.getLast?.map Commit.files
      ≠ (commit cfgB "T0" "TI2" exStagedC "m").1.commits.getLast?.map Commit.files ∧
    (commit cfgA "T0" "TI" exStagedA "m").1.commits.getLast?.map Commit.author
      ≠ (commit cfgB "T0" "TI2" exStagedC "m").1.commits.getLast?.map Commit.author ∧
    (commit cfgA "T0" "TI" exStagedA "m").1.commits.getLast?.map Commit.hash
      = (commit cfgB "T0" "TI2" exStagedC "m").1.commits.getLast?.map Commit.hash := by
  refine ⟨by decide, by decide, ?_⟩
  rfl

/-- C3 (amended): the identity of a commit created by `commit(message)` is
the first 8 hex characters of the SHA-256 of the message concatenated with
the timestamp string; neither the staged file map, nor the author
configuration, nor the branch, nor any previous head enters the hash, so
any two commits sharing message and timestamp share their identity. -/
theorem C3_hash_message_time_only (cfg cfg' : List (String × String))
    (nowStr nowIso nowIso' : String) (idx idx' : Index) (msg : String)
    (h : idx.staged ≠ []) (h' : idx'.staged ≠ []) :
    (commit cfg nowStr nowIso idx msg).1.commits.getLast?.map Commit.hash
      = some ((pyHash (msg ++ nowStr)).take 8) ∧
    (commit cfg nowStr nowIso idx msg).1.commits.getLast?.map Commit.hash
      = (commit cfg' nowStr nowIso' idx' msg).1.commits.getLast?.map Commit.hash := by
  unfold commit
  rw [if_neg h, if_neg h']
  refine ⟨?_, ?_⟩ <;> simp [List.getLast?_concat, mkCommit]

/-- C3 witness. -/
theorem C3_hash_message_time_only_witness :
    exStagedA.staged ≠ [] ∧ exStagedC.staged ≠ [] ∧
    (commit cfgA "T0" "TI" exStagedA "m").1.commits.getLast?.map Commit.hash
      = (commit cfgB "T0" "TI2" exStagedC "m").1.commits.getLast?.map Commit.hash :=
  ⟨by decide, by decide,
   (C3_hash_message_time_only cfgA cfgB "T0" "TI" "TI2" exStagedA exStagedC "m"
     (by decide) (by decide)).2⟩

/-- C4: when the target branch exists and the Index is non-empty,
`checkout` returns the uncommitted-changes error (the code's rendering of
the `UncommittedChanges` kind) and the persisted state — current branch
included — is exactly the input state. -/
theorem C4_checkout_guard (idx : Index) (b : String)
    (hb : dictLookup idx.branches b ≠ none) (hs : idx.staged ≠ []) :
    checkout idx b = (idx, UncommittedChangesMsg) := by
  unfold checkout
  rw [if_neg hb, if_pos hs]

/-- C4 witness. -/
theorem C4_checkout_guard_witness :
    dictLookup exStagedA.branches "main" ≠ none ∧ exStagedA.staged ≠ [] ∧
    checkout exStagedA "main" = (exStagedA, UncommittedChangesMsg) :=
  ⟨by decide, by decide, C4_checkout_guard exStagedA "main" (by decide) (by decide)⟩

/-- C5: with an empty Index, `commit` returns the nothing-to-commit
message (the code's rendering of the `NothingToCommit` kind) and the
entire persisted state is exactly the input state. -/
theorem C5_commit_empty (cfg : List (String × String)) (nowStr nowIso : String)
    (idx : Index) (msg : String) (h : idx.staged = []) :
    commit cfg nowStr nowIso idx msg = (idx, NothingToCommitMsg) := by
  unfold commit
  rw [if_pos h]

/-- C5 witness. -/
theorem C5_commit_empty_witness :
    initIndex.staged = [] ∧
    commit cfg0 "T0" "TI" initIndex "m" = (initIndex, NothingToCommitMsg) :=
  ⟨rfl, C5_commit_empty cfg0 "T0" "TI" initIndex "m" rfl⟩

/-- C6: creating a branch whose name already exists returns the
branch-exists error (the `BranchExists` kind) with the state unchanged;
creating a fresh name copies the current branch's target — `none` when the
current branch has no commits yet — into the new entry, touching nothing
else. -/
theorem C6_branch_create (idx : Index) (name : String) :
    (∀ t, dictLookup idx.branches name = some t →
        branch idx (some name) = (idx, BranchExistsMsg name)) ∧
    (∀ cur, dictLookup idx.branches name = none →
        dictLookup idx.branches idx.current_branch = some cur →
        (branch idx (some name)).1.branches = dictInsert idx.branches name cur ∧
        (branch idx (some name)).1.staged = idx.staged ∧
        (branch idx (some name)).1.commits = idx.commits ∧
        (branch idx (some name)).1.current_branch = idx.current_branch ∧
        dictLookup (branch idx (some name)).1.branches name = some cur) := by
  constructor
  · intro t ht
    simp [branch, ht]
  · intro cur h1 h2
    simp [branch, h1, h2]
    exact dictLookup_insert_self _ _ _

/-- C6 witness. -/
theorem C6_branch_create_witness :
    (branch exBranches (some "dev") = (exBranches, BranchExistsMsg "dev")) ∧
    ((branch exBranches (some "feature")).1.branches
        = dictInsert exBranches.branches "feature" (some "aaaa1111") ∧
      dictLookup (branch exBranches (some "feature")).1.branches "feature"
        = some (some "aaaa1111")) :=
  ⟨(C6_branch_create exBranches "dev").1 none (by decide),
   ⟨((C6_branch_create exBranches "feature").2 (some "aaaa1111")
       (by decide) (by decide)).1,
    ((C6_branch_create exBranches "feature").2 (some "aaaa1111")
       (by decide) (by decide)).2.2.2.2⟩⟩

/-- C7: staging is idempotent — adding the same on-disk file twice yields
the same Index state as adding it once, and the staged entry holds the
SHA-256 hex digest of the file's content. -/
theorem C7_add_idempotent (fs : Disk) (idx : Index) (p : String) (c : List Nat)
    (hp : p ≠ ".") (hc : dictLookup fs p = some c) :
    (add fs (add fs idx p).1 p).1 = (add fs idx p).1 ∧
    dictLookup (add fs idx p).1.staged p = some (sha256_hexdigest c) := by
  have hadd : ∀ j : Index, add fs j p =
      ({ j with staged := dictInsert j.staged p (sha256_hexdigest c) },
       "Added \x27" ++ p ++ "\x27 to stage") := by
    intro j
    unfold add
    rw [if_neg hp, hc]
  rw [hadd (add fs idx p).1, hadd idx]
  constructor
  · simp [dictInsert_idem]
  · simp [dictLookup_insert_self]

/-- C7 witness. -/
theorem C7_add_idempotent_witness :
    ("a.txt" ≠ ("." : String)) ∧ dictLookup exFs "a.txt" = some [120] ∧
    (add exFs (add exFs initIndex "a.txt").1 "a.txt").1 = (add exFs initIndex "a.txt").1 :=
  ⟨by decide, by decide,
   (C7_add_idempotent exFs initIndex "a.txt" [120] (by decide) (by decide)).1⟩

/-- C8: adding a path that is absent from the working tree returns the
pathspec error (the code's rendering of the `PathNotFound` kind) as an
ordinary result value and leaves the Index — and the whole state —
unchanged.  (`"."` always denotes the existing repository root, so a
missing path is never `"."`.) -/
theorem C8_add_missing (fs : Disk) (idx : Index) (p : String)
    (hp : p ≠ ".") (h : dictLookup fs p = none) :
    add fs idx p = (idx, PathNotFoundMsg p) := by
  unfold add
  rw [if_neg hp, h]

/-- C8 witness. -/
theorem C8_add_missing_witness :
    ("ghost.txt" ≠ ("." : String)) ∧ dictLookup exFs "ghost.txt" = none ∧
    add exFs initIndex "ghost.txt" = (initIndex, PathNotFoundMsg "ghost.txt") :=
  ⟨by decide, by decide,
   C8_add_missing exFs initIndex "ghost.txt" (by decide) (by decide)⟩

/-- C9: `add(".")` stages exactly the untracked files: any path not
classified as untracked (in particular any path present in the most
recent commit's file map, however its on-disk content changed) keeps its
previous staging entry, while every untracked path gets staged with the
digest of its on-disk content. -/
theorem C9_addDot_only_untracked (fs : Disk) (idx : Index) (p : String)
    (hnd : (fs.map Prod.fst).Nodup) :
    (p ∉ get_untracked_files fs idx →
        dictLookup (add fs idx ".").1.staged p = dictLookup idx.staged p) ∧
    (p ∈ get_untracked_files fs idx →
        ∃ c, dictLookup fs p = some c ∧
          dictLookup (add fs idx ".").1.staged p = some (sha256_hexdigest c)) ∧
    (isCommittedInLast idx p = true →
        dictLookup (add fs idx ".").1.staged p = dictLookup idx.staged p) := by
  have hadd : (add fs idx ".").1.staged
      = (get_untracked_files fs idx).foldl (stageFile fs) idx.staged := rfl
  have hnd' : (get_untracked_files fs idx).Nodup := hnd.filter _
  refine ⟨?_, ?_, ?_⟩
  · intro hp
    rw [hadd]
    exact foldl_stageFile_not_mem fs _ _ p hp
  · intro hp
    have hk : p ∈ fs.map Prod.fst := (List.mem_filter.mp hp).1
    obtain ⟨c, hc⟩ := exists_lookup_of_mem_keys fs p hk
    refine ⟨c, hc, ?_⟩
    rw [hadd]
    exact foldl_stageFile_mem fs _ _ p c hc hnd' hp
  · intro hcm
    have hp : p ∉ get_untracked_files fs idx := by
      intro hp
      have hmem := (List.mem_filter.mp hp).2
      simp [hcm] at hmem
    rw [hadd]
    exact foldl_stageFile_not_mem fs _ _ p hp

/-- C9 witness. -/
theorem C9_addDot_only_untracked_witness :
    ((exFs.map Prod.fst).Nodup) ∧
    ∃ c, dictLookup exFs "a.txt" = some c ∧
      dictLookup (add exFs initIndex ".").1.staged "a.txt" = some (sha256_hexdigest c) :=
  ⟨by decide,
   (C9_addDot_only_untracked exFs initIndex "a.txt" (by decide)).2.1 (by decide)⟩

/-- C10: `status()` and `log()` are read-only — for every working tree and
repository state they return their report with the persisted state
component exactly equal to the input state (neither ever reaches a
`save_index`). -/
theorem C10_status_log_readonly (fs : Disk) (idx : Index) :
    (status fs idx).1 = idx ∧ (log idx).1 = idx := by
  constructor
  · rfl
  · unfold log
    split <;> rfl

end EmuladorGIT
